import Mathlib

/-!
# CubeMX-VSCode: `Application/printf_redirect.c` and `Application/app_main.c`

A shallow embedding of the two application files of the firmware:

* `__io_putchar` (printf_redirect.c), the character sink that forwards one byte to the UART;
* `app_main` (app_main.c), the banner followed by the endless tick / toggle / delay loop.

The vendor HAL (`HAL_UART_Transmit`, `HAL_GPIO_TogglePin`, `HAL_Delay`) and the C library
`printf` are not part of the two files. They are modelled as operations on an explicit `World`
that records every call in order, and the names declared by `main.h` are kept as parameters.
Machine integers are `Nat`/`Int` with explicit reduction modulo `2^32`.
-/

namespace CubeMX

/-! ## Environment: names declared outside the two source files -/

/-- Names that `main.h` and the HAL headers declare and the two source files only use:
the address of the extern handle `huart2`, the wait sentinel `HAL_MAX_DELAY`, and the port and
pin of the green LED. Their values are not in the sources, so they are parameters. -/
structure MainH where
  huart2 : Nat
  HAL_MAX_DELAY : Nat
  LED_GREEN_GPIO_Port : Nat
  LED_GREEN_Pin : Nat

/-- Status codes a HAL call can report. -/
inductive HAL_StatusTypeDef
  | HAL_OK
  | HAL_ERROR
  | HAL_BUSY
  | HAL_TIMEOUT
deriving DecidableEq, Repr

/-- One call made to the hardware collaborator, as it is observed from outside. -/
inductive Effect
  | uartTransmit (huart : Nat) (payload : List Nat) (Size : Nat) (Timeout : Nat)
  | gpioToggle (port : Nat) (pin : Nat)
  | delay (ms : Nat)
deriving DecidableEq, Repr

/-- The hardware as the application sees it: the ordered record of every HAL call, the level of
each output line, and the status the transport will report for its `k`-th recorded call
(arbitrary: the application cannot choose it). -/
structure World where
  trace : List Effect
  level : Nat → Nat → Bool
  uart_status : Nat → HAL_StatusTypeDef

/-- Modelled from the spec: the blocking transport-transmit primitive `HAL_UART_Transmit`
(vendor HAL, absent from the sources). It takes a buffer, a length and a maximum wait, sends the
first `Size` bytes of the buffer, and returns a status. -/
def HAL_UART_Transmit (huart : Nat) (pData : List Nat) (Size : Nat) (Timeout : Nat)
    (w : World) : World × HAL_StatusTypeDef :=
  ({ w with trace := w.trace ++ [Effect.uartTransmit huart (pData.take Size) Size Timeout] },
   w.uart_status w.trace.length)

/-- Modelled from the spec: the digital-output toggle primitive `HAL_GPIO_TogglePin`
(vendor HAL, absent from the sources): if the line is driven high it is driven low, and vice
versa; every other line keeps its level. -/
def HAL_GPIO_TogglePin (port : Nat) (pin : Nat) (w : World) : World :=
  { w with
    trace := w.trace ++ [Effect.gpioToggle port pin]
    level := fun p q => if p = port ∧ q = pin then !(w.level p q) else w.level p q }

/-- Modelled from the spec: the blocking millisecond delay primitive `HAL_Delay`
(vendor HAL, absent from the sources). It returns once the duration has elapsed. -/
def HAL_Delay (ms : Nat) (w : World) : World :=
  { w with trace := w.trace ++ [Effect.delay ms] }

/-! ## printf_redirect.c -/

/-- The object representation of a 32-bit `int` on the little-endian Cortex-M target: the four
bytes of its two's complement value, lowest address (least significant byte) first. This is what
`(uint8_t *)&ch` points at. -/
def int_object_bytes (ch : Int) : List Nat :=
  let u := (ch % 4294967296).toNat
  [u % 256, u / 256 % 256, u / 65536 % 256, u / 16777216 % 256]

/-- `int __io_putchar(int ch)`: transmit `Size = 1` byte starting at `&ch` on `huart2` with
`HAL_MAX_DELAY`, drop the status, return `ch`. -/
def __io_putchar (h : MainH) (ch : Int) (w : World) : World × Int :=
  let r := HAL_UART_Transmit h.huart2 (int_object_bytes ch) 1 h.HAL_MAX_DELAY w
  (r.1, ch)

/-- A sequence of character codes handed to `__io_putchar` one call after another. -/
def putchars (h : MainH) : List Int → World → World
  | [], w => w
  | c :: cs, w => putchars h cs (__io_putchar h c w).1

/-! ## The formatted-output facility -/

/-- A piece of a format string: literal text, or the conversion `"%" PRIu32`. -/
inductive FmtItem
  | lit (s : String)
  | PRIu32

/-- Character codes of an (ASCII) string literal. -/
def str_bytes (s : String) : List Nat :=
  s.toList.map Char.toNat

/-- Decimal digits of `v`, least significant first, as character codes; at least one digit is
produced. `fuel` bounds the number of digits. -/
def utoa_rev : Nat → Nat → List Nat
  | 0, _ => []
  | fuel + 1, v => (48 + v % 10) :: (if v / 10 = 0 then [] else utoa_rev fuel (v / 10))

/-- Rendering of a `uint32_t` by the conversion `%u`: the decimal digits, most significant
first. A 32-bit value has at most ten digits. -/
def format_u32 (v : Nat) : List Nat :=
  (utoa_rev 10 (v % 4294967296)).reverse

/-- Expansion of a format against its arguments into the characters produced. -/
def vformat : List FmtItem → List Nat → List Nat
  | [], _ => []
  | FmtItem.lit s :: rest, args => str_bytes s ++ vformat rest args
  | FmtItem.PRIu32 :: rest, a :: args => format_u32 a ++ vformat rest args
  | FmtItem.PRIu32 :: rest, [] => vformat rest []

/-- Modelled from the spec: the formatted-output facility `printf` (C library, absent from the
sources). It invokes the character sink `__io_putchar` for every character produced, newline
included, in order, and returns the number of characters. -/
def printf (h : MainH) (fmt : List FmtItem) (args : List Nat) (w : World) : World × Int :=
  let out := vformat fmt args
  (putchars h (out.map Int.ofNat) w, (out.length : Int))

/-! ## app_main.c -/

/-- The local variable of `app_main` together with the hardware. -/
structure AppState where
  tick_counter : Nat
  world : World

/-- Line 10: `uint32_t tick_counter = 0;`. -/
def stmt_init (_h : MainH) (s : AppState) : AppState :=
  { s with tick_counter := 0 }

/-- Line 11: `printf("STM32G071 started! Printf redirection working!\n");`. -/
def stmt_banner (h : MainH) (s : AppState) : AppState :=
  { s with world :=
      (printf h [FmtItem.lit "STM32G071 started! Printf redirection working!\n"] [] s.world).1 }

/-- Line 15: `printf("Tick: %" PRIu32 "\n", tick_counter++);`. The argument is the value the
counter had before the increment; the increment is on a `uint32_t`. -/
def stmt_tick (h : MainH) (s : AppState) : AppState :=
  let arg := s.tick_counter
  { tick_counter := (s.tick_counter + 1) % 4294967296
    world := (printf h [FmtItem.lit "Tick: ", FmtItem.PRIu32, FmtItem.lit "\n"] [arg] s.world).1 }

/-- Line 16: `HAL_GPIO_TogglePin(LED_GREEN_GPIO_Port, LED_GREEN_Pin);`. -/
def stmt_toggle (h : MainH) (s : AppState) : AppState :=
  { s with world := HAL_GPIO_TogglePin h.LED_GREEN_GPIO_Port h.LED_GREEN_Pin s.world }

/-- Line 17: `HAL_Delay(1000);`. -/
def stmt_delay (_h : MainH) (s : AppState) : AppState :=
  { s with world := HAL_Delay 1000 s.world }

/-- Lines 15 to 17: one pass through the body of `while (1)`. -/
def loop_body (h : MainH) (s : AppState) : AppState :=
  stmt_delay h (stmt_toggle h (stmt_tick h s))

/-- Lines 10 and 11: what `app_main` does before it enters the loop. -/
def app_main_entry (h : MainH) (s : AppState) : AppState :=
  stmt_banner h (stmt_init h s)

/-- State of `app_main` once `n` passes through the loop body have completed. -/
def app_main_iters (h : MainH) : Nat → AppState → AppState
  | 0, s => app_main_entry h s
  | n + 1, s => loop_body h (app_main_iters h n s)

/-- Control points of `app_main`: before each statement (by source line), and `returned` for
the closing brace of line 19. -/
inductive Pc
  | line10
  | line11
  | line13
  | line15
  | line16
  | line17
  | returned
deriving DecidableEq, Repr

/-- A configuration of `app_main`: control point and state. -/
structure Config where
  pc : Pc
  st : AppState

/-- The controlling expression of `while (1)`. -/
def while_cond : Int := 1

/-- One statement of `app_main`. `none` means there is nothing left to execute: the function
has returned. The loop is left only when its controlling expression compares equal to 0. -/
def step (h : MainH) (c : Config) : Option Config :=
  match c.pc with
  | Pc.line10 => some ⟨Pc.line11, stmt_init h c.st⟩
  | Pc.line11 => some ⟨Pc.line13, stmt_banner h c.st⟩
  | Pc.line13 => if while_cond ≠ 0 then some ⟨Pc.line15, c.st⟩ else some ⟨Pc.returned, c.st⟩
  | Pc.line15 => some ⟨Pc.line16, stmt_tick h c.st⟩
  | Pc.line16 => some ⟨Pc.line17, stmt_toggle h c.st⟩
  | Pc.line17 => some ⟨Pc.line13, stmt_delay h c.st⟩
  | Pc.returned => none

/-- Execution of `k` statements; `none` if the function returned before that. -/
def run (h : MainH) : Nat → Config → Option Config
  | 0, c => some c
  | k + 1, c => (run h k c).bind (step h)

/-- Entry configuration of `app_main` on hardware `w`; the local is not yet initialised and
holds the arbitrary value `junk`. -/
def app_main_start (junk : Nat) (w : World) : Config :=
  ⟨Pc.line10, ⟨junk, w⟩⟩

/-! ## Observations on a trace -/

/-- The bytes handed to the transport, in order. -/
def uart_text : List Effect → List Nat
  | [] => []
  | Effect.uartTransmit _ payload _ _ :: es => payload ++ uart_text es
  | _ :: es => uart_text es

/-- Sum of all requested delays. -/
def total_delay : List Effect → Nat
  | [] => 0
  | Effect.delay ms :: es => ms + total_delay es
  | _ :: es => total_delay es

/-- The single transport call `__io_putchar` makes for a character code in `0..255`. -/
def tx_call (h : MainH) (c : Nat) : Effect :=
  Effect.uartTransmit h.huart2 [c] 1 h.HAL_MAX_DELAY

/-- The line the loop prints for counter value `c`. -/
def tick_line (c : Nat) : List Nat :=
  str_bytes "Tick: " ++ format_u32 c ++ str_bytes "\n"

/-- The banner line. -/
def banner_line : List Nat :=
  str_bytes "STM32G071 started! Printf redirection working!\n"

/-- Value denoted by a string of decimal digit characters, most significant first. -/
def decimal_value (ds : List Nat) : Nat :=
  ds.foldl (fun acc d => 10 * acc + (d - 48)) 0

/-- Following the spec's words, "rendered as an unsigned decimal integer": a non-empty string
of the characters `'0'..'9'` (so no sign and no padding) that denotes `c` and has no leading
zero unless it is the single digit `0`. -/
def IsUnsignedDecimal (ds : List Nat) (c : Nat) : Prop :=
  ds ≠ [] ∧ (∀ d ∈ ds, 48 ≤ d ∧ d ≤ 57) ∧ decimal_value ds = c ∧
    (ds.head? = some 48 → ds = [48])

/-- Value of a digit string given least significant digit first. -/
def decimal_value_rev : List Nat → Nat
  | [] => 0
  | d :: ds => (d - 48) + 10 * decimal_value_rev ds

/-- Everything one pass through the loop body asks of the hardware when it starts with counter
value `c`: the characters of the line, one transport call each, then the toggle, then the
delay. -/
def iteration_effects (h : MainH) (c : Nat) : List Effect :=
  (tick_line c).map (tx_call h)
    ++ [Effect.gpioToggle h.LED_GREEN_GPIO_Port h.LED_GREEN_Pin, Effect.delay 1000]

/-- Following the spec's words: the line "Tick: " followed by the counter value as an unsigned
decimal integer (the canonical numeral of the natural number `c`) followed by a newline. -/
def spec_tick_line (c : Nat) : List Nat :=
  str_bytes ("Tick: " ++ Nat.repr c ++ "\n")

/-- A concrete board used to evaluate the definitions. -/
def demoH : MainH := ⟨536871000, 4294967295, 1342177280, 32⟩

/-- A concrete hardware state: nothing recorded yet, all lines low, transport always succeeds. -/
def demoWorld : World := ⟨[], fun _ _ => false, fun _ => HAL_StatusTypeDef.HAL_OK⟩

/-- A twelve-character string, as the character codes handed to the redirector. -/
def twelve_chars : List Int :=
  (str_bytes "Hello, World").map Int.ofNat

/-! ## Basic facts about the redirector -/

theorem int_object_bytes_take_one (ch : Int) :
    (int_object_bytes ch).take 1 = [(ch % 256).toNat] := by
  simp only [int_object_bytes, List.take_succ_cons, List.take_zero, List.cons.injEq, and_true]
  omega

theorem io_putchar_trace (h : MainH) (ch : Int) (w : World) :
    (__io_putchar h ch w).1.trace
      = w.trace ++ [Effect.uartTransmit h.huart2 [(ch % 256).toNat] 1 h.HAL_MAX_DELAY] := by
  simp [__io_putchar, HAL_UART_Transmit, int_object_bytes_take_one]

theorem io_putchar_level (h : MainH) (ch : Int) (w : World) :
    (__io_putchar h ch w).1.level = w.level := rfl

theorem io_putchar_byte (h : MainH) (c : Nat) (hc : c < 256) (w : World) :
    (__io_putchar h (Int.ofNat c) w).1.trace = w.trace ++ [tx_call h c] := by
  rw [io_putchar_trace]
  have : ((Int.ofNat c) % 256).toNat = c := by
    simp only [Int.ofNat_eq_coe]
    omega
  rw [this, tx_call]

theorem putchars_level (h : MainH) (cs : List Int) (w : World) :
    (putchars h cs w).level = w.level := by
  induction cs generalizing w with
  | nil => rfl
  | cons c cs ih => rw [putchars, ih, io_putchar_level]

theorem putchars_bytes_trace (h : MainH) (bs : List Nat) (hb : ∀ b ∈ bs, b < 256) (w : World) :
    (putchars h (bs.map Int.ofNat) w).trace = w.trace ++ bs.map (tx_call h) := by
  induction bs generalizing w with
  | nil => simp [putchars]
  | cons b bs ih =>
    have hb0 : b < 256 := hb b (List.mem_cons_self b bs)
    have hbs : ∀ x ∈ bs, x < 256 := fun x hx => hb x (List.mem_cons_of_mem b hx)
    simp only [List.map_cons, putchars]
    rw [ih hbs, io_putchar_byte h b hb0]
    simp

/-! ## Basic facts about the decimal rendering -/

theorem utoa_rev_digit (fuel v : Nat) : ∀ d ∈ utoa_rev fuel v, 48 ≤ d ∧ d ≤ 57 := by
  induction fuel generalizing v with
  | zero => intro d hd; simp [utoa_rev] at hd
  | succ fuel ih =>
    intro d hd
    simp only [utoa_rev, List.mem_cons] at hd
    rcases hd with hd | hd
    · omega
    · split at hd
      · simp at hd
      · exact ih _ d hd

theorem utoa_rev_ne_nil (fuel v : Nat) : utoa_rev (fuel + 1) v ≠ [] := by
  simp [utoa_rev]

theorem decimal_value_append (ds : List Nat) (d : Nat) :
    decimal_value (ds ++ [d]) = 10 * decimal_value ds + (d - 48) := by
  simp [decimal_value, List.foldl_append]

theorem decimal_value_reverse (ds : List Nat) :
    decimal_value ds.reverse = decimal_value_rev ds := by
  induction ds with
  | nil => rfl
  | cons d ds ih =>
    rw [List.reverse_cons, decimal_value_append, ih, decimal_value_rev]
    omega

theorem utoa_rev_value (fuel v : Nat) (hv : v < 10 ^ fuel) :
    decimal_value_rev (utoa_rev fuel v) = v := by
  induction fuel generalizing v with
  | zero => simp at hv; simp [utoa_rev, decimal_value_rev, hv]
  | succ fuel ih =>
    simp only [utoa_rev, decimal_value_rev]
    split
    · simp only [decimal_value_rev]; omega
    · have h1 : v / 10 < 10 ^ fuel := by
        rw [pow_succ] at hv
        omega
      rw [ih _ h1]
      omega

theorem utoa_rev_last (fuel v : Nat) (hv : v < 10 ^ fuel) (hpos : 0 < v) :
    ∀ d, (utoa_rev fuel v).getLast? = some d → d ≠ 48 := by
  induction fuel generalizing v with
  | zero => simp at hv; omega
  | succ fuel ih =>
    intro d hd
    simp only [utoa_rev] at hd
    split at hd
    · simp at hd
      omega
    · rename_i hne
      have h1 : v / 10 < 10 ^ fuel := by
        rw [pow_succ] at hv
        omega
      have h2 : 0 < v / 10 := Nat.pos_of_ne_zero hne
      have hnil : utoa_rev fuel (v / 10) ≠ [] := by
        cases fuel with
        | zero => simp at h1; omega
        | succ f => exact utoa_rev_ne_nil f _
      obtain ⟨x, xs, hx⟩ := List.exists_cons_of_ne_nil hnil
      rw [hx, List.getLast?_cons_cons, ← hx] at hd
      exact ih _ h1 h2 d hd

theorem format_u32_decimal (c : Nat) (hc : c < 4294967296) :
    IsUnsignedDecimal (format_u32 c) c := by
  have hmod : c % 4294967296 = c := Nat.mod_eq_of_lt hc
  have hlt : c < 10 ^ 10 := by omega
  refine ⟨?_, ?_, ?_, ?_⟩
  · simp [format_u32, utoa_rev]
  · intro d hd
    simp only [format_u32, List.mem_reverse] at hd
    exact utoa_rev_digit _ _ d hd
  · rw [format_u32, decimal_value_reverse, hmod, utoa_rev_value 10 c hlt]
  · intro hh
    rw [format_u32, hmod] at hh ⊢
    rw [List.head?_reverse] at hh
    rcases Nat.eq_zero_or_pos c with h0 | hpos
    · subst h0; decide
    · exact absurd rfl (utoa_rev_last 10 c hlt hpos 48 hh)

theorem format_u32_byte (c : Nat) : ∀ b ∈ format_u32 c, b < 256 := by
  intro b hb
  simp only [format_u32, List.mem_reverse] at hb
  have := utoa_rev_digit _ _ b hb
  omega

theorem tick_line_byte (c : Nat) : ∀ b ∈ tick_line c, b < 256 := by
  intro b hb
  simp only [tick_line, List.mem_append] at hb
  rcases hb with (hb | hb) | hb
  · revert b; decide
  · exact format_u32_byte c b hb
  · revert b; decide

theorem banner_line_byte : ∀ b ∈ banner_line, b < 256 := by
  decide

/-! ## Basic facts about the statements of `app_main` -/

theorem printf_trace (h : MainH) (fmt : List FmtItem) (args : List Nat) (w : World)
    (hb : ∀ b ∈ vformat fmt args, b < 256) :
    (printf h fmt args w).1.trace = w.trace ++ (vformat fmt args).map (tx_call h) := by
  simp only [printf]
  exact putchars_bytes_trace h _ hb w

theorem printf_level (h : MainH) (fmt : List FmtItem) (args : List Nat) (w : World) :
    (printf h fmt args w).1.level = w.level := by
  simp only [printf]
  exact putchars_level h _ w

theorem vformat_tick (c : Nat) :
    vformat [FmtItem.lit "Tick: ", FmtItem.PRIu32, FmtItem.lit "\n"] [c] = tick_line c := by
  simp [vformat, tick_line]

theorem vformat_banner :
    vformat [FmtItem.lit "STM32G071 started! Printf redirection working!\n"] [] = banner_line := by
  simp [vformat, banner_line]

theorem stmt_tick_trace (h : MainH) (s : AppState) :
    (stmt_tick h s).world.trace
      = s.world.trace ++ (tick_line s.tick_counter).map (tx_call h) := by
  simp only [stmt_tick]
  rw [printf_trace, vformat_tick]
  rw [vformat_tick]
  exact tick_line_byte _

theorem stmt_banner_trace (h : MainH) (s : AppState) :
    (stmt_banner h s).world.trace = s.world.trace ++ banner_line.map (tx_call h) := by
  simp only [stmt_banner]
  rw [printf_trace, vformat_banner]
  rw [vformat_banner]
  exact banner_line_byte

theorem loop_body_trace (h : MainH) (s : AppState) :
    (loop_body h s).world.trace = s.world.trace ++ iteration_effects h s.tick_counter := by
  simp only [loop_body, stmt_delay, stmt_toggle, HAL_Delay, HAL_GPIO_TogglePin]
  rw [stmt_tick_trace]
  simp [iteration_effects]

theorem loop_body_counter (h : MainH) (s : AppState) :
    (loop_body h s).tick_counter = (s.tick_counter + 1) % 4294967296 := rfl

theorem loop_body_level (h : MainH) (s : AppState) :
    (loop_body h s).world.level h.LED_GREEN_GPIO_Port h.LED_GREEN_Pin
      = !(s.world.level h.LED_GREEN_GPIO_Port h.LED_GREEN_Pin) := by
  simp only [loop_body, stmt_delay, stmt_toggle, HAL_Delay, HAL_GPIO_TogglePin, stmt_tick]
  simp [printf_level]

theorem entry_counter (h : MainH) (s : AppState) : (app_main_entry h s).tick_counter = 0 := rfl

theorem entry_level (h : MainH) (s : AppState) :
    (app_main_entry h s).world.level = s.world.level := by
  simp only [app_main_entry, stmt_banner, stmt_init]
  exact printf_level h _ _ _

theorem entry_trace (h : MainH) (s : AppState) :
    (app_main_entry h s).world.trace = s.world.trace ++ banner_line.map (tx_call h) := by
  rw [app_main_entry, stmt_banner_trace]
  rfl

theorem iters_counter (h : MainH) (n : Nat) (s : AppState) :
    (app_main_iters h n s).tick_counter = n % 4294967296 := by
  induction n with
  | zero => rfl
  | succ n ih =>
    rw [app_main_iters, loop_body_counter, ih]
    omega

theorem iters_level (h : MainH) (n : Nat) (s : AppState) :
    (app_main_iters h n s).world.level h.LED_GREEN_GPIO_Port h.LED_GREEN_Pin
      = xor (s.world.level h.LED_GREEN_GPIO_Port h.LED_GREEN_Pin) (decide (n % 2 = 1)) := by
  induction n with
  | zero => simp [app_main_iters, entry_level]
  | succ n ih =>
    rw [app_main_iters, loop_body_level, ih]
    rcases Nat.mod_two_eq_zero_or_one n with h0 | h1
    · have : (n + 1) % 2 = 1 := by omega
      simp [h0, this]
    · have : (n + 1) % 2 = 0 := by omega
      simp [h1, this]

theorem iters_trace (h : MainH) (n : Nat) (s : AppState) :
    (app_main_iters h n s).world.trace
      = s.world.trace ++ banner_line.map (tx_call h)
          ++ (List.range n).flatMap (fun i => iteration_effects h (i % 4294967296)) := by
  induction n with
  | zero => simp [app_main_iters, entry_trace]
  | succ n ih =>
    rw [app_main_iters, loop_body_trace, ih, iters_counter, List.range_succ]
    simp [List.flatMap_append]

/-! ## Basic facts about the observations -/

theorem uart_text_append (a b : List Effect) :
    uart_text (a ++ b) = uart_text a ++ uart_text b := by
  induction a with
  | nil => rfl
  | cons e a ih => cases e <;> simp [uart_text, ih]

theorem uart_text_tx (h : MainH) (bs : List Nat) : uart_text (bs.map (tx_call h)) = bs := by
  induction bs with
  | nil => rfl
  | cons b bs ih => simp [tx_call, uart_text] at ih ⊢; exact ih

theorem uart_text_iteration (h : MainH) (c : Nat) :
    uart_text (iteration_effects h c) = tick_line c := by
  rw [iteration_effects, uart_text_append, uart_text_tx]
  simp [uart_text]

theorem total_delay_append (a b : List Effect) :
    total_delay (a ++ b) = total_delay a + total_delay b := by
  induction a with
  | nil => simp [total_delay]
  | cons e a ih => cases e <;> simp [total_delay, ih]; omega

theorem total_delay_tx (h : MainH) (bs : List Nat) : total_delay (bs.map (tx_call h)) = 0 := by
  induction bs with
  | nil => rfl
  | cons b bs ih => simp [tx_call, total_delay] at ih ⊢; exact ih

theorem total_delay_iteration (h : MainH) (c : Nat) :
    total_delay (iteration_effects h c) = 1000 := by
  simp [iteration_effects, total_delay_append, total_delay_tx, total_delay]

/-! ## Basic facts about the control flow -/

theorem run_add (h : MainH) (j k : Nat) (c : Config) :
    run h (k + j) c = (run h k c).bind (run h j) := by
  induction j with
  | zero => simp [run]
  | succ j ih =>
    rw [← Nat.add_assoc, run, ih]
    cases run h k c with
    | none => rfl
    | some c1 => simp [run]

/-- The state `app_main_iters h n` is the one the statement-by-statement execution reaches at
the loop head after the two entry statements and `n` passes of four control points each. -/
theorem run_iters (h : MainH) (n junk : Nat) (w : World) :
    run h (2 + 4 * n) (app_main_start junk w)
      = some ⟨Pc.line13, app_main_iters h n ⟨junk, w⟩⟩ := by
  induction n with
  | zero => simp [run, step, app_main_start, app_main_iters, app_main_entry]
  | succ n ih =>
    have e : 2 + 4 * (n + 1) = (2 + 4 * n) + 4 := by ring
    rw [e, run_add, ih]
    simp [run, step, while_cond, app_main_iters, loop_body]

theorem step_running (h : MainH) (c : Config) (hc : c.pc ≠ Pc.returned) :
    ∃ c1, step h c = some c1 ∧ c1.pc ≠ Pc.returned := by
  obtain ⟨pc, st⟩ := c
  cases pc <;> simp [step, while_cond] at hc ⊢

theorem run_running (h : MainH) (k : Nat) (c : Config) (hc : c.pc ≠ Pc.returned) :
    ∃ c1, run h k c = some c1 ∧ c1.pc ≠ Pc.returned := by
  induction k with
  | zero => exact ⟨c, rfl, hc⟩
  | succ k ih =>
    obtain ⟨c1, h1, h2⟩ := ih
    obtain ⟨c2, h3, h4⟩ := step_running h c1 h2
    exact ⟨c2, by simp [run, h1, h3], h4⟩

theorem next_iteration (h : MainH) (c : Config) (hc : c.pc ≠ Pc.returned) :
    ∃ j c1, 0 < j ∧ j ≤ 4 ∧ run h j c = some c1 ∧ c1.pc = Pc.line15 := by
  obtain ⟨pc, st⟩ := c
  cases pc
  · exact ⟨3, _, by omega, by omega, rfl, rfl⟩
  · exact ⟨2, _, by omega, by omega, rfl, rfl⟩
  · exact ⟨1, _, by omega, by omega, rfl, rfl⟩
  · exact ⟨4, _, by omega, by omega, rfl, rfl⟩
  · exact ⟨3, _, by omega, by omega, rfl, rfl⟩
  · exact ⟨2, _, by omega, by omega, rfl, rfl⟩
  · exact absurd rfl hc

/-! ## The rendering agrees with the canonical decimal numeral -/

theorem digitChar_code (d : Nat) (hd : d < 10) : (Nat.digitChar d).toNat = 48 + d := by
  interval_cases d <;> rfl

theorem toDigitsCore_utoa (f1 : Nat) :
    ∀ (f2 n : Nat) (ds : List Char), n < 10 ^ (f1 + 1) → n < f2 →
      (Nat.toDigitsCore 10 f2 n ds).map Char.toNat
        = (utoa_rev (f1 + 1) n).reverse ++ ds.map Char.toNat := by
  induction f1 with
  | zero =>
    intro f2 n ds hn hf
    obtain ⟨f, rfl⟩ : ∃ f, f2 = f + 1 := ⟨f2 - 1, by omega⟩
    have h0 : n / 10 = 0 := by omega
    have hd : n % 10 < 10 := Nat.mod_lt _ (by decide)
    simp [Nat.toDigitsCore, utoa_rev, h0, digitChar_code _ hd]
  | succ f1 ih =>
    intro f2 n ds hn hf
    obtain ⟨f, rfl⟩ : ∃ f, f2 = f + 1 := ⟨f2 - 1, by omega⟩
    have hd : n % 10 < 10 := Nat.mod_lt _ (by decide)
    by_cases h0 : n / 10 = 0
    · simp [Nat.toDigitsCore, utoa_rev, h0, digitChar_code _ hd]
    · have h1 : n / 10 < 10 ^ (f1 + 1) := by
        rw [pow_succ] at hn
        omega
      have h2 : n / 10 < f := by omega
      have e := ih f (n / 10) (Nat.digitChar (n % 10) :: ds) h1 h2
      rw [Nat.toDigitsCore]
      simp only [h0, if_false]
      rw [e]
      conv_rhs => rw [utoa_rev]
      simp [h0, digitChar_code _ hd]

theorem format_u32_repr (c : Nat) (hc : c < 4294967296) :
    format_u32 c = str_bytes (Nat.repr c) := by
  have hlt : c < 10 ^ 10 := by omega
  have e := toDigitsCore_utoa 9 (c + 1) c [] hlt (Nat.lt_succ_self c)
  simp only [List.map_nil, List.append_nil] at e
  rw [format_u32, Nat.mod_eq_of_lt hc, ← e]
  rfl

theorem tick_line_spec (c : Nat) (hc : c < 4294967296) : tick_line c = spec_tick_line c := by
  rw [tick_line, spec_tick_line, format_u32_repr c hc]
  simp [str_bytes]

/-! ## The redirector, `__io_putchar` -/

/-- C1: character codes `c_1..c_k`, each in `0..255`, passed one after another to `__io_putchar`
reach the transport as exactly `k` calls of `HAL_UART_Transmit`, appended to the record in the
same order, the `i`-th on `huart2` with length 1, wait `HAL_MAX_DELAY` and the one-byte payload
`c_i`. -/
theorem io_putchar_forwards_each_once_in_order (h : MainH) (cs : List Int)
    (hcs : ∀ c ∈ cs, 0 ≤ c ∧ c ≤ 255) (w : World) :
    (putchars h cs w).trace
        = w.trace ++ cs.map (fun c => Effect.uartTransmit h.huart2 [c.toNat] 1 h.HAL_MAX_DELAY)
      ∧ (putchars h cs w).trace.length = w.trace.length + cs.length := by
  have key : (putchars h cs w).trace
      = w.trace ++ cs.map (fun c => Effect.uartTransmit h.huart2 [c.toNat] 1 h.HAL_MAX_DELAY) := by
    induction cs generalizing w with
    | nil => simp [putchars]
    | cons c cs ih =>
      have hc := hcs c (List.mem_cons_self c cs)
      have hrest : ∀ x ∈ cs, 0 ≤ x ∧ x ≤ 255 := fun x hx => hcs x (List.mem_cons_of_mem c hx)
      have hbyte : (c % 256).toNat = c.toNat := by omega
      rw [putchars, ih hrest, io_putchar_trace, hbyte]
      simp
  refine ⟨key, ?_⟩
  rw [key]
  simp

/-- C1, the scenario of the spec: a 12-character string gives exactly 12 single-byte transport
calls, one per character and in the order of the string. -/
theorem io_putchar_forwards_twelve_chars :
    (∀ c ∈ twelve_chars, 0 ≤ c ∧ c ≤ 255) ∧ twelve_chars.length = 12 ∧
    (putchars demoH twelve_chars demoWorld).trace
      = [tx_call demoH 72, tx_call demoH 101, tx_call demoH 108, tx_call demoH 108,
         tx_call demoH 111, tx_call demoH 44, tx_call demoH 32, tx_call demoH 87,
         tx_call demoH 111, tx_call demoH 114, tx_call demoH 108, tx_call demoH 100] :=
  ⟨by decide, by decide,
   (io_putchar_forwards_each_once_in_order demoH twelve_chars (by decide) demoWorld).1.trans
     (by decide)⟩

/-- C2: `__io_putchar ch` returns `ch` on every hardware state, hence whatever status the
transport reports: for each of the four statuses, on hardware whose transport reports that
status the primitive does return it and the redirector still returns `ch`. -/
theorem io_putchar_returns_argument (h : MainH) (ch : Int) (w : World) :
    (__io_putchar h ch w).2 = ch ∧
    ∀ st : HAL_StatusTypeDef,
      (HAL_UART_Transmit h.huart2 (int_object_bytes ch) 1 h.HAL_MAX_DELAY
          { w with uart_status := fun _ => st }).2 = st ∧
      (__io_putchar h ch { w with uart_status := fun _ => st }).2 = ch :=
  ⟨rfl, fun _ => ⟨rfl, rfl⟩⟩

/-- C10: the single byte `__io_putchar` hands to the transport is `ch mod 256`, the first byte
of the little-endian two's complement representation of `ch`, while the value returned is `ch`
itself; the two agree exactly when `0 ≤ ch ≤ 255`. For `ch = 256` the byte is 0 and for
`ch = -1` it is 255. -/
theorem io_putchar_sends_low_byte (h : MainH) (ch : Int) (w : World) :
    (__io_putchar h ch w).1.trace
        = w.trace ++ [Effect.uartTransmit h.huart2 [(ch % 256).toNat] 1 h.HAL_MAX_DELAY]
      ∧ (int_object_bytes ch).head? = some (ch % 256).toNat
      ∧ (__io_putchar h ch w).2 = ch
      ∧ ((((ch % 256).toNat : Int) = (__io_putchar h ch w).2) ↔ (0 ≤ ch ∧ ch ≤ 255))
      ∧ (__io_putchar h 256 w).1.trace = w.trace ++ [tx_call h 0]
      ∧ (__io_putchar h 256 w).2 = 256
      ∧ (__io_putchar h (-1) w).1.trace = w.trace ++ [tx_call h 255]
      ∧ (__io_putchar h (-1) w).2 = -1 := by
  refine ⟨io_putchar_trace h ch w, ?_, rfl, ?_, ?_, rfl, ?_, rfl⟩
  · have e := int_object_bytes_take_one ch
    simp only [int_object_bytes, List.take_succ_cons, List.take_zero, List.cons.injEq,
      and_true] at e
    simp [int_object_bytes, e]
  · show ((ch % 256).toNat : Int) = ch ↔ _
    omega
  · rw [io_putchar_trace]; rfl
  · rw [io_putchar_trace]; rfl

/-! ## The reporter loop, `app_main` -/

/-- C3, as stated, fails: after `2^32` passes through the loop the counter is 0, not `2^32`. -/
theorem tick_counter_differs_after_wrap :
    (app_main_iters demoH 4294967296 ⟨0, demoWorld⟩).tick_counter ≠ 4294967296 := by
  rw [iters_counter]
  decide

/-- C3, amended: the counter is 0 when the loop is entered, each pass adds exactly one modulo
`2^32`, and after `n` passes it equals `n mod 2^32`. -/
theorem tick_counter_after_iterations (h : MainH) (n : Nat) (s : AppState) :
    (app_main_iters h 0 s).tick_counter = 0
      ∧ (app_main_iters h (n + 1) s).tick_counter
          = ((app_main_iters h n s).tick_counter + 1) % 4294967296
      ∧ (app_main_iters h n s).tick_counter = n % 4294967296 :=
  ⟨rfl, rfl, iters_counter h n s⟩

/-- C4: a pass that starts with counter 4294967295 sends "Tick: 4294967295\n" (then toggles and
delays) and leaves the counter at 0; the next pass sends exactly "Tick: 0\n"; and every pass
leaves the counter at `(counter + 1) mod 2^32`. -/
theorem tick_counter_wraps (h : MainH) (w : World) (s : AppState) :
    (loop_body h ⟨4294967295, w⟩).world.trace
        = w.trace ++ (str_bytes "Tick: 4294967295\n").map (tx_call h)
            ++ [Effect.gpioToggle h.LED_GREEN_GPIO_Port h.LED_GREEN_Pin, Effect.delay 1000]
      ∧ (loop_body h ⟨4294967295, w⟩).tick_counter = 0
      ∧ (loop_body h (loop_body h ⟨4294967295, w⟩)).world.trace
        = (loop_body h ⟨4294967295, w⟩).world.trace ++ (str_bytes "Tick: 0\n").map (tx_call h)
            ++ [Effect.gpioToggle h.LED_GREEN_GPIO_Port h.LED_GREEN_Pin, Effect.delay 1000]
      ∧ (loop_body h s).tick_counter = (s.tick_counter + 1) % 4294967296 := by
  have e1 : tick_line 4294967295 = str_bytes "Tick: 4294967295\n" := by decide
  have e0 : tick_line 0 = str_bytes "Tick: 0\n" := by decide
  have hc : (loop_body h ⟨4294967295, w⟩).tick_counter = 0 := by
    rw [loop_body_counter]
    show (4294967295 + 1) % 4294967296 = 0
    decide
  refine ⟨?_, hc, ?_, rfl⟩
  · rw [loop_body_trace, iteration_effects]
    show _ ++ (List.map (tx_call h) (tick_line 4294967295) ++ _) = _
    rw [e1, List.append_assoc]
  · rw [loop_body_trace (s := loop_body h ⟨4294967295, w⟩), hc, iteration_effects, e0,
      List.append_assoc]

/-- C5: a pass that starts with counter `c < 2^32` sends exactly "Tick: ", then `c` as an
unsigned decimal numeral (digits only, denoting `c`, no leading zero), then one newline, and no
other character; the numeral is that of the value before the increment, and the counter
afterwards is a different value. -/
theorem tick_line_is_counter_in_decimal (h : MainH) (c : Nat) (hc : c < 4294967296)
    (w : World) :
    (loop_body h ⟨c, w⟩).world.trace
        = w.trace ++ (str_bytes "Tick: " ++ format_u32 c ++ str_bytes "\n").map (tx_call h)
            ++ [Effect.gpioToggle h.LED_GREEN_GPIO_Port h.LED_GREEN_Pin, Effect.delay 1000]
      ∧ uart_text (loop_body h ⟨c, w⟩).world.trace
        = uart_text w.trace ++ (str_bytes "Tick: " ++ format_u32 c ++ str_bytes "\n")
      ∧ IsUnsignedDecimal (format_u32 c) c
      ∧ str_bytes "Tick: " ++ format_u32 c ++ str_bytes "\n" = spec_tick_line c
      ∧ (loop_body h ⟨c, w⟩).tick_counter = (c + 1) % 4294967296
      ∧ (loop_body h ⟨c, w⟩).tick_counter ≠ c := by
  refine ⟨?_, ?_, format_u32_decimal c hc, tick_line_spec c hc, rfl, ?_⟩
  · rw [loop_body_trace, iteration_effects, List.append_assoc]
    rfl
  · rw [loop_body_trace, uart_text_append, uart_text_iteration]
    rfl
  · show (c + 1) % 4294967296 ≠ c
    omega

/-- C5, the scenario of the spec: with counter 0 the line sent is exactly "Tick: 0\n". -/
theorem tick_line_for_zero :
    (0 : Nat) < 4294967296 ∧
    uart_text (loop_body demoH ⟨0, demoWorld⟩).world.trace = str_bytes "Tick: 0\n" :=
  ⟨by decide,
   (tick_line_is_counter_in_decimal demoH 0 (by decide) demoWorld).2.1.trans (by decide)⟩

/-- C6: after `n` passes the level of the LED_GREEN line is its initial level XOR
`(n mod 2 = 1)`; each pass inverts it once. -/
theorem led_level_after_iterations (h : MainH) (n : Nat) (s : AppState) :
    (app_main_iters h n s).world.level h.LED_GREEN_GPIO_Port h.LED_GREEN_Pin
        = xor (s.world.level h.LED_GREEN_GPIO_Port h.LED_GREEN_Pin) (decide (n % 2 = 1))
      ∧ (app_main_iters h (n + 1) s).world.level h.LED_GREEN_GPIO_Port h.LED_GREEN_Pin
        = !((app_main_iters h n s).world.level h.LED_GREEN_GPIO_Port h.LED_GREEN_Pin) :=
  ⟨iters_level h n s, loop_body_level h (app_main_iters h n s)⟩

/-- C7: one pass appends to the record of hardware calls exactly the characters of the Tick
line, then one toggle of LED_GREEN, then one delay of 1000, and nothing else; so after `n`
passes the record is the banner followed by `n` such groups in order, and the delays requested
since entry add up to `1000 * n`. -/
theorem iteration_effects_in_order (h : MainH) (n : Nat) (s : AppState) :
    (loop_body h s).world.trace
        = s.world.trace ++ (tick_line s.tick_counter).map (tx_call h)
            ++ [Effect.gpioToggle h.LED_GREEN_GPIO_Port h.LED_GREEN_Pin]
            ++ [Effect.delay 1000]
      ∧ (app_main_iters h n s).world.trace
        = s.world.trace ++ banner_line.map (tx_call h)
            ++ (List.range n).flatMap (fun i =>
                (tick_line (i % 4294967296)).map (tx_call h)
                  ++ [Effect.gpioToggle h.LED_GREEN_GPIO_Port h.LED_GREEN_Pin]
                  ++ [Effect.delay 1000])
      ∧ total_delay (app_main_iters h n s).world.trace
        = total_delay s.world.trace + 1000 * n := by
  refine ⟨?_, ?_, ?_⟩
  · rw [loop_body_trace, iteration_effects]
    simp
  · rw [iters_trace]
    simp [iteration_effects]
  · induction n with
    | zero =>
      rw [app_main_iters, entry_trace, total_delay_append, total_delay_tx]
    | succ n ih =>
      rw [app_main_iters, loop_body_trace, total_delay_append, total_delay_iteration, ih]
      omega

/-- C8: `app_main` never returns. After any number `k` of executed statements the function is
still running at a control point other than the return, and within at most four further
statements it is again at the first statement of the loop body; and at the loop head the body is
entered whatever the counter and the hardware state are. -/
theorem app_main_never_returns (h : MainH) (junk : Nat) (w : World) (k : Nat) (st : AppState) :
    (∃ c, run h k (app_main_start junk w) = some c ∧ c.pc ≠ Pc.returned ∧
        ∃ j c1, 0 < j ∧ j ≤ 4 ∧ run h (k + j) (app_main_start junk w) = some c1
          ∧ c1.pc = Pc.line15)
      ∧ step h ⟨Pc.line13, st⟩ = some ⟨Pc.line15, st⟩ := by
  refine ⟨?_, rfl⟩
  obtain ⟨c, h1, h2⟩ := run_running h k (app_main_start junk w) (by simp [app_main_start])
  obtain ⟨j, c1, hj0, hj4, h3, h4⟩ := next_iteration h c h2
  refine ⟨c, h1, h2, j, c1, hj0, hj4, ?_, h4⟩
  rw [run_add, h1]
  exact h3

/-- C9: for `n < 2^32`, everything `app_main` has sent to the transport when the `n`-th pass
ends is the banner line once, followed by the lines "Tick: i\n" for `i = 0, ..., n-1` in
increasing order; the banner differs from "Tick: 0\n"; and printing the banner changes neither
the counter nor any output level. -/
theorem banner_once_then_tick_lines (h : MainH) (n : Nat) (hn : n < 4294967296)
    (s : AppState) :
    uart_text (app_main_iters h n s).world.trace
        = uart_text s.world.trace ++ banner_line ++ (List.range n).flatMap spec_tick_line
      ∧ banner_line ≠ spec_tick_line 0
      ∧ (stmt_banner h s).tick_counter = s.tick_counter
      ∧ (stmt_banner h s).world.level = s.world.level := by
  have hb : banner_line ≠ spec_tick_line 0 := by
    rw [← tick_line_spec 0 (by decide)]
    decide
  refine ⟨?_, hb, ?_, ?_⟩
  rotate_left
  · simp only [stmt_banner]
  · simp only [stmt_banner]
    exact printf_level h _ _ _
  rw [iters_trace, uart_text_append, uart_text_append, uart_text_tx]
  congr 1
  clear s hb
  induction n with
  | zero => simp [uart_text]
  | succ n ih =>
    have hn1 : n < 4294967296 := by omega
    rw [List.range_succ, List.flatMap_append, List.flatMap_append, uart_text_append, ih hn1]
    simp only [List.flatMap_singleton, List.append_cancel_left_eq]
    rw [uart_text_iteration, Nat.mod_eq_of_lt hn1, tick_line_spec n hn1]

/-- C9 at `n = 3`: the banner, then "Tick: 0", "Tick: 1", "Tick: 2". -/
theorem banner_then_three_tick_lines :
    (3 : Nat) < 4294967296 ∧
    uart_text (app_main_iters demoH 3 ⟨7, demoWorld⟩).world.trace
      = str_bytes
          "STM32G071 started! Printf redirection working!\nTick: 0\nTick: 1\nTick: 2\n" :=
  ⟨by decide,
   (banner_once_then_tick_lines demoH 3 (by decide) ⟨7, demoWorld⟩).1.trans (by decide)⟩

end CubeMX
